import Mathlib

/-!
Shallow embedding of the recommendation engine of the AIoT-Face_And_Order
repository (src/recommendation_engine.py together with the configuration
constants of src/config.py and the row shapes produced by
src/database_manager.py), with theorems settling the specification claims
about it.

Modelling conventions:
* Python floats are modelled as exact rationals (`ℚ`).
* Python's `datetime.fromisoformat(s.replace('Z', '+00:00'))` is modelled by
  an abstract oracle `parse : String → Option Int` giving the timestamp as an
  integer number of seconds, with `none` standing for the `ValueError` the
  library raises on an unparsable string; `datetime.now()` is the parameter
  `now : Int`.
* The sklearn TF-IDF/cosine pipeline is modelled by an abstract oracle
  `sim : Nat → Nat → ℚ`, `sim i j` being the cosine similarity between the
  feature vectors of catalog positions `i` and `j`.
* A Python `dict` keeps insertion order, and within one process iteration of
  the small `set`s used here is a fixed deterministic order; both are modelled
  as association lists / duplicate-free lists in insertion order.
* Python's `sorted(..., reverse=True)` is a stable descending sort, modelled
  by `List.insertionSort` with the reflexive descending relation, which
  inserts an earlier element before later elements of equal key.
* A raised exception is modelled with `Except Unit`.
-/

namespace CafeRec

/-- Catalog entry, as returned by `DatabaseManager.get_menu_items`. -/
structure MenuItem where
  id : Int
  name : String
  category : String
  subcategory : Option String
  ingredients : List String
  deriving Repr, DecidableEq

/-- One line of an order: `{menu_item_id, quantity}` as used by the engine. -/
structure OrderLineItem where
  menu_item_id : Int
  quantity : Int
  deriving Repr, DecidableEq

/-- One order of the history returned by `get_customer_order_history`:
the engine reads only `order_date` and `items`. -/
structure OrderRecord where
  order_date : String
  items : List OrderLineItem
  deriving Repr, DecidableEq

/-- A row of `get_popular_items`: a menu item together with the aggregate
`order_count` column (`item.get('order_count', 0)` reads it with default 0,
hence the `Option`). -/
structure PopularRow where
  item : MenuItem
  order_count : Option Int
  deriving Repr, DecidableEq

/-- A per-strategy scored recommendation dict:
`{'item', 'score', 'reason', 'recommendation_type'}`. -/
structure Recommendation where
  item : MenuItem
  score : ℚ
  reason : String
  recommendation_type : String
  deriving Repr, DecidableEq

/-- A combined recommendation dict:
`{'item', 'score', 'reason', 'recommendation_types'}`. -/
structure CombinedRecommendation where
  item : MenuItem
  score : ℚ
  reason : String
  recommendation_types : List String
  deriving Repr, DecidableEq

/-- The configuration surface of src/config.py consumed by the engine. -/
structure Config where
  MIN_ORDERS_FOR_RECOMMENDATION : Nat
  RECOMMENDATION_WEIGHT_FREQUENCY : ℚ
  RECOMMENDATION_WEIGHT_RECENCY : ℚ
  RECOMMENDATION_WEIGHT_SIMILARITY : ℚ
  deriving Repr

/-- The default values of src/config.py lines 26-29. -/
def defaultConfig : Config :=
  { MIN_ORDERS_FOR_RECOMMENDATION := 3
    RECOMMENDATION_WEIGHT_FREQUENCY := 4/10
    RECOMMENDATION_WEIGHT_RECENCY := 3/10
    RECOMMENDATION_WEIGHT_SIMILARITY := 3/10 }

/-- The read-only storage collaborator (`DatabaseManager`) as seen by the
engine: per-customer order history, the current catalog, and the
popular-items aggregate query. -/
structure Database where
  get_customer_order_history : Int → List OrderRecord
  get_menu_items : List MenuItem
  get_popular_items : Nat → List PopularRow

/-- `collections.Counter` over `Int` keys: an association list in first-insertion
order; `counterAdd c k v` is `c[k] += v`. -/
def counterAdd (c : List (Int × Int)) (k : Int) (v : Int) : List (Int × Int) :=
  match c with
  | [] => [(k, v)]
  | (k0, v0) :: rest =>
      if k0 = k then (k0, v0 + v) :: rest else (k0, v0) :: counterAdd rest k v

/-- The item-quantity counter built by both the frequency scorer (lines 49-52)
and the recency scorer (lines 152-155): for each order, for each line item,
`counter[menu_item_id] += quantity`. -/
def itemCounts (history : List OrderRecord) : List (Int × Int) :=
  history.foldl
    (fun c order =>
      order.items.foldl (fun c it => counterAdd c it.menu_item_id it.quantity) c)
    []

/-- Adding an element to a Python `set`, modelled in insertion order. -/
def setAdd (s : List Int) (x : Int) : List Int := if x ∈ s then s else s ++ [x]

/-- Adding a string to a Python `set`, modelled in insertion order. -/
def setAddStr (s : List String) (x : String) : List String :=
  if x ∈ s then s else s ++ [x]

/-- The `ordered_items` set of lines 79-82: every `menu_item_id` occurring in
the history. -/
def orderedItems (history : List OrderRecord) : List Int :=
  history.foldl
    (fun s order => order.items.foldl (fun s it => setAdd s it.menu_item_id) s)
    []

/-- Stable descending sort by a rational key: Python's
`sorted(l, key=key, reverse=True)`, and also the order of
`Counter.most_common` / `heapq.nlargest` (both stable). -/
def sortDescBy (key : α → ℚ) (l : List α) : List α :=
  List.insertionSort (fun a b => key b ≤ key a) l

/-- The catalog lookup and dict construction shared verbatim by the frequency
scorer (lines 58-69) and the recency scorer (lines 158-168): `next(..., None)`
over the catalog, yielding a recommendation dict when the id is present. -/
def renderCount (menu : List MenuItem) (reasonPre reasonPost tag : String)
    (p : Int × Int) : Option Recommendation :=
  match menu.find? (fun item => item.id == p.1) with
  | none => none
  | some item_details => some
      { item := item_details
        score := (p.2 : ℚ)
        reason := reasonPre ++ toString p.2 ++ reasonPost
        recommendation_type := tag }

/-- The rendering loop shared verbatim by the frequency scorer (lines 54-71)
and the recency scorer (lines 157-170): take the `limit` most common counter
entries (stable descending sort, as `Counter.most_common`) and look each id up
in the catalog, silently dropping absent ids. -/
def countBasedRecs (menu : List MenuItem) (counts : List (Int × Int))
    (limit : Nat) (reasonPre reasonPost tag : String) : List Recommendation :=
  ((sortDescBy (fun p => (p.2 : ℚ)) counts).take limit).filterMap
    (renderCount menu reasonPre reasonPost tag)

/-- `_get_frequency_based_recommendations` (lines 44-71): count quantities per
item over the whole history, take the `limit` most common, and look each id up
in the catalog, silently dropping ids that are absent. -/
def get_frequency_based_recommendations (db : Database) (customer_id : Int)
    (limit : Nat) : List Recommendation :=
  let order_history := db.get_customer_order_history customer_id
  countBasedRecs db.get_menu_items (itemCounts order_history) limit
    "You\x27ve ordered this " " times" "frequency"

/-- 30 days in seconds: the hardcoded `timedelta(days=30)` of line 143. -/
def THIRTY_DAYS : Int := 30 * 86400

/-- The list comprehension of lines 146-149: keep the orders whose parsed
timestamp is strictly later than `recent_date`.  `datetime.fromisoformat`
raises on an unparsable string and the comprehension has no handler, so a
parse failure aborts the whole computation (`Except.error ()`). -/
def filterRecent (parse : String → Option Int) (recent_date : Int) :
    List OrderRecord → Except Unit (List OrderRecord)
  | [] => Except.ok []
  | o :: rest =>
      match parse o.order_date with
      | none => Except.error ()
      | some t =>
          match filterRecent parse recent_date rest with
          | Except.error e => Except.error e
          | Except.ok tail =>
              Except.ok (if recent_date < t then o :: tail else tail)

/-- `_get_recency_based_recommendations` (lines 140-170): filter the history to
orders newer than `now - 30 days`, count quantities per item, take the `limit`
most common, and look each id up in the catalog. -/
def get_recency_based_recommendations (parse : String → Option Int) (now : Int)
    (db : Database) (customer_id : Int) (limit : Nat) :
    Except Unit (List Recommendation) :=
  let recent_date := now - THIRTY_DAYS
  let order_history := db.get_customer_order_history customer_id
  match filterRecent parse recent_date order_history with
  | Except.error e => Except.error e
  | Except.ok recent_orders =>
      Except.ok (countBasedRecs db.get_menu_items (itemCounts recent_orders)
        limit "Recently ordered " " times" "recency")

/-- `numpy.argsort` over a list of similarities: indices of `vals` in
ascending order of value (tie order is implementation-defined in numpy; a
fixed deterministic order is used here). -/
def argsortAsc (vals : List ℚ) : List Nat :=
  List.insertionSort (fun i j => vals.getD i 0 ≤ vals.getD j 0)
    (List.range vals.length)

/-- The slice `l[-limit-1:-1][::-1]` of line 115: the elements from position
`max 0 (n - limit - 1)` up to but excluding the last one, reversed. -/
def sliceTopExcludingLast (l : List Nat) (limit : Nat) : List Nat :=
  ((l.take (l.length - 1)).drop (l.length - 1 - limit)).reverse

/-- The body of one iteration of the loop of lines 109-126 for one owned item
id: when the id is in the catalog (`if ordered_item_id in item_ids`), take the
top similar indices of its similarity row and keep those whose item id is not
already owned; otherwise contribute nothing. -/
def candidatesForOwned (sim : Nat → Nat → ℚ) (all_menu_items : List MenuItem)
    (item_ids : List Int) (ordered_items : List Int) (limit : Nat)
    (oid : Int) : List Recommendation :=
  if oid ∈ item_ids then
    let i := item_ids.findIdx (fun x => x == oid)
    let similarities := (List.range item_ids.length).map (fun j => sim i j)
    let similar_indices := sliceTopExcludingLast (argsortAsc similarities) limit
    similar_indices.filterMap (fun idx =>
      if item_ids.getD idx 0 ∈ ordered_items then none
      else
        match all_menu_items[idx]? with
        | none => none
        | some item_details => some
            { item := item_details
              score := similarities.getD idx 0
              reason := "Similar to items you\x27ve enjoyed"
              recommendation_type := "similarity" })
  else []

/-- The candidate-collection loop of lines 106-126: append the candidates of
every owned item in turn. -/
def similarityCandidates (sim : Nat → Nat → ℚ) (all_menu_items : List MenuItem)
    (item_ids : List Int) (ordered_items : List Int) (limit : Nat) :
    List Recommendation :=
  ordered_items.foldl
    (fun recs oid =>
      recs ++ candidatesForOwned sim all_menu_items item_ids ordered_items limit oid)
    []

/-- The dedup-and-truncate loop of lines 129-136: walk the sorted list, keep
the first occurrence of each item id, and stop once `limit` entries have been
kept (the check runs after appending, so even `limit = 0` yields one entry
when any candidate exists). -/
def takeUniqueById (limit : Nat) (count : Nat) (seen : List Int) :
    List Recommendation → List Recommendation
  | [] => []
  | r :: rest =>
      if r.item.id ∈ seen then takeUniqueById limit count seen rest
      else if limit ≤ count + 1 then [r]
      else r :: takeUniqueById limit (count + 1) (setAdd seen r.item.id) rest

/-- `_get_similarity_based_recommendations` (lines 73-138), with the TF-IDF
cosine matrix abstracted as the oracle `sim`. -/
def get_similarity_based_recommendations (sim : Nat → Nat → ℚ) (db : Database)
    (customer_id : Int) (limit : Nat) : List Recommendation :=
  let order_history := db.get_customer_order_history customer_id
  let all_menu_items := db.get_menu_items
  let ordered_items := orderedItems order_history
  if ordered_items = [] then []
  else
    let item_ids := all_menu_items.map (fun item => item.id)
    let recs := similarityCandidates sim all_menu_items item_ids ordered_items limit
    takeUniqueById limit 0 [] (sortDescBy (fun r => r.score) recs)

/-- `_get_popular_recommendations` (lines 172-185). -/
def get_popular_recommendations (db : Database) (limit : Nat) :
    List Recommendation :=
  (db.get_popular_items limit).map (fun row =>
    { item := row.item
      score := ((row.order_count.getD 0 : Int) : ℚ)
      reason := "Popular choice among customers"
      recommendation_type := "popular" })

/-- The accumulator value of the `combined_scores` dict of lines 194-239:
`{'item', 'total_score', 'reasons', 'types'}`. -/
structure Accum where
  item : MenuItem
  total_score : ℚ
  reasons : List String
  types : List String
  deriving Repr, DecidableEq

/-- `if item_id not in combined_scores: combined_scores[item_id] = {...}`
(lines 199-205 and the two copies): insert a fresh accumulator at the end of
the dict when the key is new. -/
def ensureKey (rec : Recommendation) (scores : List (Int × Accum)) :
    List (Int × Accum) :=
  if rec.item.id ∈ scores.map Prod.fst then scores
  else scores ++ [(rec.item.id, { item := rec.item, total_score := 0, reasons := [], types := [] })]

/-- The unconditional update of lines 207-209 (and the two copies): add
`score * weight` to the total, append the reason, add the type tag. -/
def updateKey (weight : ℚ) (rec : Recommendation) :
    List (Int × Accum) → List (Int × Accum)
  | [] => []
  | p :: rest =>
      if p.1 = rec.item.id then
        (p.1,
          { item := p.2.item
            total_score := p.2.total_score + rec.score * weight
            reasons := p.2.reasons ++ [rec.reason]
            types := setAddStr p.2.types rec.recommendation_type }) :: rest
      else p :: updateKey weight rec rest

/-- Processing one recommendation entry into `combined_scores`. -/
def addRec (weight : ℚ) (rec : Recommendation) (scores : List (Int × Accum)) :
    List (Int × Accum) :=
  updateKey weight rec (ensureKey rec scores)

/-- One of the three `for rec in ..._recs:` loops of lines 196-239. -/
def processRecs (weight : ℚ) : List Recommendation → List (Int × Accum) →
    List (Int × Accum)
  | [], scores => scores
  | rec :: rest, scores => processRecs weight rest (addRec weight rec scores)

/-- `list(set(...))` over the reason strings, modelled in insertion order. -/
def dedupStr (l : List String) : List String := l.foldl setAddStr []

/-- The `combined_scores` dict after the three loops of lines 196-239:
frequency entries first (weight `RECOMMENDATION_WEIGHT_FREQUENCY`), then
similarity, then recency. -/
def combinedScoresFor (cfg : Config)
    (frequency_recs similarity_recs recency_recs : List Recommendation) :
    List (Int × Accum) :=
  processRecs cfg.RECOMMENDATION_WEIGHT_RECENCY recency_recs
    (processRecs cfg.RECOMMENDATION_WEIGHT_SIMILARITY similarity_recs
      (processRecs cfg.RECOMMENDATION_WEIGHT_FREQUENCY frequency_recs []))

/-- `_combine_recommendations` (lines 187-258): accumulate weighted scores per
item id over the three strategy lists, sort by total score descending, take
the top `limit`, and render each accumulator (joining at most two deduplicated
reasons with "; "). -/
def combine_recommendations (cfg : Config)
    (frequency_recs similarity_recs recency_recs : List Recommendation)
    (limit : Nat) : List CombinedRecommendation :=
  ((sortDescBy (fun p => p.2.total_score)
      (combinedScoresFor cfg frequency_recs similarity_recs recency_recs)).take
        limit).map
    (fun p =>
      let unique_reasons := dedupStr p.2.reasons
      { item := p.2.item
        score := p.2.total_score
        reason := String.intercalate "; " (unique_reasons.take 2)
        recommendation_types := p.2.types })

/-- The two shapes `get_customer_recommendations` can return: the popularity
fallback (dicts with a single `recommendation_type`) or the combined list
(dicts with a `recommendation_types` list). -/
inductive EngineOutput where
  | popularList (recs : List Recommendation)
  | combinedList (recs : List CombinedRecommendation)
  deriving Repr, DecidableEq

/-- `get_customer_recommendations` (lines 16-42): fall back to popular items
below the history threshold, otherwise run the three scorers at `limit * 2`
and combine.  The recency scorer can raise, which propagates. -/
def get_customer_recommendations (cfg : Config) (sim : Nat → Nat → ℚ)
    (parse : String → Option Int) (now : Int) (db : Database)
    (customer_id : Int) (limit : Nat) : Except Unit EngineOutput :=
  let order_history := db.get_customer_order_history customer_id
  if order_history.length < cfg.MIN_ORDERS_FOR_RECOMMENDATION then
    Except.ok (EngineOutput.popularList (get_popular_recommendations db limit))
  else
    let frequency_recommendations :=
      get_frequency_based_recommendations db customer_id (limit * 2)
    let similarity_recommendations :=
      get_similarity_based_recommendations sim db customer_id (limit * 2)
    match get_recency_based_recommendations parse now db customer_id (limit * 2) with
    | Except.error e => Except.error e
    | Except.ok recency_recommendations =>
        Except.ok (EngineOutput.combinedList (combine_recommendations cfg
          frequency_recommendations similarity_recommendations
          recency_recommendations limit))

/-- Total quantity of menu item `k` over a history: the reference sum the
frequency counter is proved to compute. -/
def totalQuantity (history : List OrderRecord) (k : Int) : Int :=
  (history.map (fun o =>
    ((o.items.filter (fun it => it.menu_item_id = k)).map
      (fun it => it.quantity)).sum)).sum

/-- Sum of the scores a strategy list assigns to menu item `k`: the reference
sum the combiner accumulator is proved to compute. -/
def sumScores (recs : List Recommendation) (k : Int) : ℚ :=
  ((recs.filter (fun r => r.item.id = k)).map (fun r => r.score)).sum

/-- Reference lookup in a counter association list (first match, default 0). -/
def countOf : List (Int × Int) → Int → Int
  | [], _ => 0
  | p :: rest, k => if p.1 = k then p.2 else countOf rest k

/-- Reference lookup of the accumulated total score in `combined_scores`
(first match, default 0). -/
def accScore : List (Int × Accum) → Int → ℚ
  | [], _ => 0
  | p :: rest, k => if p.1 = k then p.2.total_score else accScore rest k

/-- Reference lookup of the accumulated tag set in `combined_scores`
(first match, default empty). -/
def accTypes : List (Int × Accum) → Int → List String
  | [], _ => []
  | p :: rest, k => if p.1 = k then p.2.types else accTypes rest k

/-! ### Concrete fixtures used by witnesses and counterexamples -/

/-- "Espresso" (the spec's running example). -/
def mA : MenuItem :=
  { id := 1, name := "Espresso", category := "drink", subcategory := some "coffee"
    ingredients := ["espresso"] }

/-- "Americano". -/
def mB : MenuItem :=
  { id := 2, name := "Americano", category := "drink", subcategory := some "coffee"
    ingredients := ["espresso", "water"] }

/-- History [{item A ×3}, {item A ×2}, {item B ×1}] over catalog [A, B]. -/
def dbAB : Database :=
  { get_customer_order_history := fun _ =>
      [ { order_date := "2026-01-01T09:00:00", items := [{ menu_item_id := 1, quantity := 3 }] }
      , { order_date := "2026-01-02T09:00:00", items := [{ menu_item_id := 1, quantity := 2 }] }
      , { order_date := "2026-01-03T09:00:00", items := [{ menu_item_id := 2, quantity := 1 }] } ]
    get_menu_items := [mA, mB]
    get_popular_items := fun _ => [] }

/-- Expected top frequency entry for `dbAB`: A with score 5. -/
def recA5 : Recommendation :=
  { item := mA, score := 5, reason := "You\x27ve ordered this 5 times"
    recommendation_type := "frequency" }

/-- Expected second frequency entry for `dbAB`: B with score 1. -/
def recB1 : Recommendation :=
  { item := mB, score := 1, reason := "You\x27ve ordered this 1 times"
    recommendation_type := "frequency" }

/-- A concrete stand-in for the timestamp parser: accepts the three dates of
`dbAB` and nothing else. -/
def parseW : String → Option Int := fun s =>
  if s = "2026-01-01T09:00:00" then some 1767258000
  else if s = "2026-01-02T09:00:00" then some 1767344400
  else if s = "2026-01-03T09:00:00" then some 1767430800
  else none

/-- An order whose timestamp `parseW` cannot parse. -/
def badOrder3 : OrderRecord :=
  { order_date := "not-a-timestamp", items := [{ menu_item_id := 2, quantity := 1 }] }

/-- Three orders (at or above the default threshold), the second of which has
an unparsable timestamp. -/
def dbBadDate : Database :=
  { get_customer_order_history := fun _ =>
      [ { order_date := "2026-01-01T09:00:00", items := [{ menu_item_id := 1, quantity := 3 }] }
      , badOrder3
      , { order_date := "2026-01-03T09:00:00", items := [{ menu_item_id := 1, quantity := 2 }] } ]
    get_menu_items := [mA, mB]
    get_popular_items := fun _ => [] }

/-- A one-order (below-threshold) customer with a two-row popular-items
aggregate, one row lacking `order_count`. -/
def dbPop : Database :=
  { get_customer_order_history := fun _ =>
      [ { order_date := "2026-01-01T09:00:00", items := [{ menu_item_id := 1, quantity := 1 }] } ]
    get_menu_items := [mA, mB]
    get_popular_items := fun limit =>
      ([{ item := mB, order_count := some 7 }, { item := mA, order_count := none }] :
        List PopularRow).take limit }

/-- An order dated strictly after `now = 0` (timestamp 86400, one day in the
future), hence outside the trailing window `[now - 30 days, now]`. -/
def futOrder : OrderRecord :=
  { order_date := "2026-02-11T00:00:00", items := [{ menu_item_id := 1, quantity := 2 }] }

/-- Parser stand-in mapping `futOrder`'s date to timestamp 86400. -/
def parseFut : String → Option Int := fun s =>
  if s = "2026-02-11T00:00:00" then some 86400 else none

/-- A history consisting of the single future-dated order. -/
def dbFut : Database :=
  { get_customer_order_history := fun _ => [futOrder]
    get_menu_items := [mA, mB]
    get_popular_items := fun _ => [] }

/-- TF-IDF cosine oracle over the catalog [A, B]: self-similarity 1, other 1/2. -/
def simW : Nat → Nat → ℚ := fun i j => if i = j then 1 else 1/2

/-- A customer who only ever ordered item A (three times), over catalog [A, B]. -/
def dbSim : Database :=
  { get_customer_order_history := fun _ =>
      [ { order_date := "2026-01-01T09:00:00", items := [{ menu_item_id := 1, quantity := 1 }] }
      , { order_date := "2026-01-02T09:00:00", items := [{ menu_item_id := 1, quantity := 1 }] }
      , { order_date := "2026-01-03T09:00:00", items := [{ menu_item_id := 1, quantity := 1 }] } ]
    get_menu_items := [mA, mB]
    get_popular_items := fun _ => [] }

/-- The similarity recommendation of B produced for `dbSim` under `simW`. -/
def recSimB : Recommendation :=
  { item := mB, score := 1/2, reason := "Similar to items you\x27ve enjoyed"
    recommendation_type := "similarity" }

/-- Parser stand-in that accepts every timestamp as epoch 0. -/
def parseAll : String → Option Int := fun _ => some 0

/-- TF-IDF cosine oracle that is identically 0. -/
def sim0 : Nat → Nat → ℚ := fun _ _ => 0

/-- A weight configuration whose weights sum to 3/2 instead of 1. -/
def badCfg : Config :=
  { MIN_ORDERS_FOR_RECOMMENDATION := 3
    RECOMMENDATION_WEIGHT_FREQUENCY := 1/2
    RECOMMENDATION_WEIGHT_RECENCY := 1/2
    RECOMMENDATION_WEIGHT_SIMILARITY := 1/2 }

/-- The output the engine computes for `dbSim` under `badCfg` (score
3 = 3·(1/2) + 3·(1/2)): computed with the unvalidated weights as given. -/
def outBad : List CombinedRecommendation :=
  [ { item := mA, score := 3
      reason := "You\x27ve ordered this 3 times; Recently ordered 3 times"
      recommendation_types := ["frequency", "recency"] } ]

/-- The output the engine computes for `dbSim` under the default weights with
oracle `simW` and parser `parseAll`. -/
def outW : List CombinedRecommendation :=
  [ { item := mA, score := 21/10
      reason := "You\x27ve ordered this 3 times; Recently ordered 3 times"
      recommendation_types := ["frequency", "recency"] }
  , { item := mB, score := 3/20
      reason := "Similar to items you\x27ve enjoyed"
      recommendation_types := ["similarity"] } ]

/-- A frequency entry scoring item A at 10. -/
def fA10 : Recommendation :=
  { item := mA, score := 10, reason := "You\x27ve ordered this 10 times"
    recommendation_type := "frequency" }

/-- A frequency entry scoring item B at 10. -/
def fB10 : Recommendation :=
  { item := mB, score := 10, reason := "You\x27ve ordered this 10 times"
    recommendation_type := "frequency" }

/-- A similarity entry scoring item A at 0.8. -/
def sA08 : Recommendation :=
  { item := mA, score := 8/10, reason := "Similar to items you\x27ve enjoyed"
    recommendation_type := "similarity" }

/-- Combined entry for A: 10·0.4 + 0.8·0.3 = 4.24. -/
def cA424 : CombinedRecommendation :=
  { item := mA, score := 424/100
    reason := "You\x27ve ordered this 10 times; Similar to items you\x27ve enjoyed"
    recommendation_types := ["frequency", "similarity"] }

/-- Combined entry for B: 10·0.4 = 4. -/
def cB40 : CombinedRecommendation :=
  { item := mB, score := 4, reason := "You\x27ve ordered this 10 times"
    recommendation_types := ["frequency"] }

/-! ### Counter correctness -/

theorem countOf_counterAdd (c : List (Int × Int)) (k0 v k : Int) :
    countOf (counterAdd c k0 v) k = countOf c k + (if k0 = k then v else 0) := by
  induction c with
  | nil =>
      by_cases h : k0 = k <;> simp [counterAdd, countOf, h]
  | cons p rest ih =>
      by_cases h1 : p.1 = k0
      · by_cases h2 : p.1 = k
        · have hk : k0 = k := h1.symm.trans h2
          simp [counterAdd, countOf, h1, h2, hk]
        · have hk : ¬ k0 = k := fun he => h2 (h1.trans he)
          simp [counterAdd, countOf, h1, h2, hk]
      · by_cases h2 : p.1 = k
        · have hk : ¬ k0 = k := fun he => h1 (h2.trans he.symm)
          have hk2 : ¬ k = k0 := fun he => hk he.symm
          simp [counterAdd, countOf, h1, h2, hk, hk2]
        · simp [counterAdd, countOf, h1, h2, ih]

theorem keys_counterAdd (c : List (Int × Int)) (k0 v : Int) :
    (counterAdd c k0 v).map Prod.fst =
      if k0 ∈ c.map Prod.fst then c.map Prod.fst else c.map Prod.fst ++ [k0] := by
  induction c with
  | nil => simp [counterAdd]
  | cons p rest ih =>
      by_cases h1 : p.1 = k0
      · simp [counterAdd, h1]
      · have hne : ¬ k0 = p.1 := fun he => h1 he.symm
        simp only [counterAdd, if_neg h1, List.map_cons, List.mem_cons, ih]
        by_cases h2 : k0 ∈ rest.map Prod.fst <;> simp [h2, hne]

theorem nodup_keys_counterAdd {c : List (Int × Int)} (k0 v : Int)
    (h : (c.map Prod.fst).Nodup) : ((counterAdd c k0 v).map Prod.fst).Nodup := by
  rw [keys_counterAdd]
  by_cases hm : k0 ∈ c.map Prod.fst
  · simpa [hm]
  · simp only [hm, if_false]
    rw [List.nodup_append]
    refine ⟨h, List.nodup_singleton _, ?_⟩
    intro a ha hb
    rw [List.mem_singleton] at hb
    exact hm (hb ▸ ha)

theorem countOf_foldl_items (items : List OrderLineItem) (c : List (Int × Int)) (k : Int) :
    countOf (items.foldl (fun c it => counterAdd c it.menu_item_id it.quantity) c) k
      = countOf c k
        + ((items.filter (fun it => it.menu_item_id = k)).map (fun it => it.quantity)).sum := by
  induction items generalizing c with
  | nil => simp
  | cons it rest ih =>
      by_cases h : it.menu_item_id = k
      · simp [ih, countOf_counterAdd, List.filter_cons, h]
        omega
      · simp [ih, countOf_counterAdd, List.filter_cons, h]

theorem nodup_keys_foldl_items (items : List OrderLineItem) (c : List (Int × Int))
    (h : (c.map Prod.fst).Nodup) :
    (((items.foldl (fun c it => counterAdd c it.menu_item_id it.quantity) c)).map Prod.fst).Nodup := by
  induction items generalizing c with
  | nil => exact h
  | cons it rest ih => exact ih _ (nodup_keys_counterAdd _ _ h)

theorem countOf_foldl_orders (history : List OrderRecord) (c : List (Int × Int)) (k : Int) :
    countOf (history.foldl
      (fun c order => order.items.foldl
        (fun c it => counterAdd c it.menu_item_id it.quantity) c) c) k
      = countOf c k + totalQuantity history k := by
  induction history generalizing c with
  | nil => simp [totalQuantity]
  | cons o rest ih =>
      simp only [List.foldl_cons, ih, countOf_foldl_items, totalQuantity, List.map_cons,
        List.sum_cons]
      have : totalQuantity rest k =
          (rest.map (fun o =>
            ((o.items.filter (fun it => it.menu_item_id = k)).map
              (fun it => it.quantity)).sum)).sum := rfl
      omega

theorem countOf_itemCounts (history : List OrderRecord) (k : Int) :
    countOf (itemCounts history) k = totalQuantity history k := by
  have := countOf_foldl_orders history [] k
  simpa [itemCounts, countOf] using this

theorem nodup_keys_itemCounts (history : List OrderRecord) :
    ((itemCounts history).map Prod.fst).Nodup := by
  have : ∀ c : List (Int × Int), (c.map Prod.fst).Nodup →
      ((history.foldl (fun c order => order.items.foldl
        (fun c it => counterAdd c it.menu_item_id it.quantity) c) c).map Prod.fst).Nodup := by
    induction history with
    | nil => exact fun c h => h
    | cons o rest ih =>
        exact fun c h => ih _ (nodup_keys_foldl_items _ _ h)
  simpa [itemCounts] using this [] (by simp)

theorem countOf_of_mem {c : List (Int × Int)} (hnd : (c.map Prod.fst).Nodup)
    {p : Int × Int} (hp : p ∈ c) : countOf c p.1 = p.2 := by
  induction c with
  | nil => cases hp
  | cons q rest ih =>
      rcases List.mem_cons.mp hp with h | h
      · subst h; simp [countOf]
      · have hq : ¬ q.1 = p.1 := by
          intro he
          have hmem : p.1 ∈ rest.map Prod.fst := List.mem_map.mpr ⟨p, h, rfl⟩
          simp only [List.map_cons, List.nodup_cons] at hnd
          exact hnd.1 (by rw [he]; exact hmem)
        simp only [countOf, if_neg hq]
        exact ih (by simp only [List.map_cons, List.nodup_cons] at hnd; exact hnd.2) h

/-! ### Sorting lemmas -/

theorem sortDescBy_pairwise (key : α → ℚ) (l : List α) :
    (sortDescBy key l).Pairwise (fun a b => key b ≤ key a) := by
  haveI : IsTotal α (fun a b => key b ≤ key a) := ⟨fun a b => le_total (key b) (key a)⟩
  haveI : IsTrans α (fun a b => key b ≤ key a) := ⟨fun a b c h1 h2 => le_trans h2 h1⟩
  exact List.sorted_insertionSort _ l

theorem mem_sortDescBy {key : α → ℚ} {l : List α} {x : α} :
    x ∈ sortDescBy key l ↔ x ∈ l := List.mem_insertionSort _

theorem sortDescBy_perm (key : α → ℚ) (l : List α) : (sortDescBy key l).Perm l :=
  List.perm_insertionSort _ l

/-! ### Count-based scorer lemmas -/

theorem renderCount_some {menu : List MenuItem} {pre post tag : String}
    {p : Int × Int} {r : Recommendation}
    (h : renderCount menu pre post tag p = some r) :
    r.score = (p.2 : ℚ) ∧ r.item.id = p.1 ∧ r.item ∈ menu ∧
      r.recommendation_type = tag := by
  unfold renderCount at h
  cases hfind : menu.find? (fun item => item.id == p.1) with
  | none => rw [hfind] at h; cases h
  | some d =>
      rw [hfind] at h
      have hd := List.find?_some hfind
      have hdm := List.mem_of_find?_eq_some hfind
      cases h
      exact ⟨rfl, by simpa using hd, hdm, rfl⟩

theorem mem_countBasedRecs {menu : List MenuItem} {counts : List (Int × Int)}
    {limit : Nat} {pre post tag : String} {r : Recommendation}
    (hr : r ∈ countBasedRecs menu counts limit pre post tag) :
    ∃ p ∈ counts, r.item.id = p.1 ∧ r.score = (p.2 : ℚ) ∧ r.item ∈ menu ∧
      r.recommendation_type = tag := by
  unfold countBasedRecs at hr
  rw [List.mem_filterMap] at hr
  obtain ⟨p, hp, hfp⟩ := hr
  have hpc : p ∈ counts := mem_sortDescBy.mp ((List.take_sublist _ _).subset hp)
  obtain ⟨h1, h2, h3, h4⟩ := renderCount_some hfp
  exact ⟨p, hpc, h2, h1, h3, h4⟩

theorem countBasedRecs_length (menu : List MenuItem) (counts : List (Int × Int))
    (limit : Nat) (pre post tag : String) :
    (countBasedRecs menu counts limit pre post tag).length ≤ limit :=
  le_trans (List.length_filterMap_le _ _) (List.length_take_le _ _)

theorem countBasedRecs_sorted (menu : List MenuItem) (counts : List (Int × Int))
    (limit : Nat) (pre post tag : String) :
    ((countBasedRecs menu counts limit pre post tag).map
      (fun r => r.score)).Pairwise (fun a b => b ≤ a) := by
  unfold countBasedRecs
  rw [List.pairwise_map, List.pairwise_filterMap]
  have hs : ((sortDescBy (fun p : Int × Int => (p.2 : ℚ)) counts).take limit).Pairwise
      (fun p q => (q.2 : ℚ) ≤ (p.2 : ℚ)) :=
    List.Pairwise.sublist (List.take_sublist _ _) (sortDescBy_pairwise _ _)
  refine hs.imp ?_
  intro p q hpq b hb b' hb'
  rw [Option.mem_def] at hb hb'
  rw [(renderCount_some hb).1, (renderCount_some hb').1]
  exact hpq

/-! ### Timestamp filtering lemmas -/

theorem filterRecent_error {parse : String → Option Int} {d : Int}
    {l : List OrderRecord} {o : OrderRecord} (ho : o ∈ l)
    (hbad : parse o.order_date = none) :
    filterRecent parse d l = Except.error () := by
  induction l with
  | nil => cases ho
  | cons a rest ih =>
      rcases List.mem_cons.mp ho with h | h
      · subst h
        unfold filterRecent
        rw [hbad]
      · unfold filterRecent
        cases hp : parse a.order_date with
        | none => rfl
        | some t => rw [ih h]

theorem filterRecent_ok {parse : String → Option Int} {d : Int}
    {l os : List OrderRecord} (h : filterRecent parse d l = Except.ok os) :
    (∀ o ∈ os, ∃ t, parse o.order_date = some t ∧ d < t)
  ∧ (∀ o ∈ l, ∀ t, parse o.order_date = some t → d < t → o ∈ os) := by
  induction l generalizing os with
  | nil =>
      unfold filterRecent at h
      cases h
      exact ⟨fun o ho => absurd ho (List.not_mem_nil o), fun o ho => absurd ho (List.not_mem_nil o)⟩
  | cons a rest ih =>
      unfold filterRecent at h
      cases hp : parse a.order_date with
      | none => simp only [hp] at h; exact Except.noConfusion h
      | some t =>
          simp only [hp] at h
          cases hrec : filterRecent parse d rest with
          | error e => simp only [hrec] at h; exact Except.noConfusion h
          | ok tail =>
              simp only [hrec] at h
              obtain ⟨ih1, ih2⟩ := ih hrec
              by_cases hd : d < t
              · rw [if_pos hd] at h
                cases h
                constructor
                · intro o ho
                  rcases List.mem_cons.mp ho with rfl | ho
                  · exact ⟨t, hp, hd⟩
                  · exact ih1 o ho
                · intro o ho t' hpt' hdt'
                  rcases List.mem_cons.mp ho with rfl | ho
                  · exact List.mem_cons_self _ _
                  · exact List.mem_cons_of_mem _ (ih2 o ho t' hpt' hdt')
              · rw [if_neg hd] at h
                cases h
                refine ⟨ih1, ?_⟩
                intro o ho t' hpt' hdt'
                rcases List.mem_cons.mp ho with rfl | ho
                · rw [hp] at hpt'
                  cases hpt'
                  exact absurd hdt' hd
                · exact ih2 o ho t' hpt' hdt'

/-! ### Similarity scorer lemmas -/

theorem takeUniqueById_subset {limit count : Nat} {seen : List Int}
    {l : List Recommendation} {r : Recommendation}
    (hr : r ∈ takeUniqueById limit count seen l) : r ∈ l := by
  induction l generalizing count seen with
  | nil => cases hr
  | cons a rest ih =>
      unfold takeUniqueById at hr
      by_cases h1 : a.item.id ∈ seen
      · rw [if_pos h1] at hr
        exact List.mem_cons_of_mem _ (ih hr)
      · rw [if_neg h1] at hr
        by_cases h2 : limit ≤ count + 1
        · rw [if_pos h2] at hr
          rw [List.mem_singleton] at hr
          exact hr ▸ List.mem_cons_self _ _
        · rw [if_neg h2] at hr
          rcases List.mem_cons.mp hr with rfl | hr
          · exact List.mem_cons_self _ _
          · exact List.mem_cons_of_mem _ (ih hr)

theorem mem_foldl_append {β : Type} {f : β → List Recommendation} :
    ∀ {l : List β} {acc : List Recommendation} {r : Recommendation},
      r ∈ l.foldl (fun recs oid => recs ++ f oid) acc →
        r ∈ acc ∨ ∃ oid ∈ l, r ∈ f oid := by
  intro l
  induction l with
  | nil => exact fun h => Or.inl h
  | cons a rest ih =>
      intro acc r h
      rcases ih h with h | ⟨oid, ho, hf⟩
      · rcases List.mem_append.mp h with h | h
        · exact Or.inl h
        · exact Or.inr ⟨a, List.mem_cons_self _ _, h⟩
      · exact Or.inr ⟨oid, List.mem_cons_of_mem _ ho, hf⟩

theorem candidatesForOwned_not_owned {sim : Nat → Nat → ℚ}
    {menu : List MenuItem} {ordered : List Int} {limit : Nat} {oid : Int}
    {r : Recommendation}
    (hr : r ∈ candidatesForOwned sim menu (menu.map (fun item => item.id))
      ordered limit oid) :
    r.item.id ∉ ordered := by
  unfold candidatesForOwned at hr
  by_cases hmem : oid ∈ menu.map (fun item => item.id)
  · rw [if_pos hmem] at hr
    simp only [List.mem_filterMap] at hr
    obtain ⟨idx, hidx, hfr⟩ := hr
    by_cases hown : (menu.map (fun item => item.id)).getD idx 0 ∈ ordered
    · rw [if_pos hown] at hfr; cases hfr
    · rw [if_neg hown] at hfr
      cases hd : menu[idx]? with
      | none => rw [hd] at hfr; cases hfr
      | some d =>
          rw [hd] at hfr
          cases hfr
          have hgd : (menu.map (fun item => item.id)).getD idx 0 = d.id := by
            rw [List.getD_eq_getElem?_getD, List.getElem?_map, hd]
            rfl
          rwa [hgd] at hown
  · rw [if_neg hmem] at hr
    cases hr

/-! ### Combiner accumulator lemmas -/

theorem keys_updateKey (w : ℚ) (rec : Recommendation) (s : List (Int × Accum)) :
    (updateKey w rec s).map Prod.fst = s.map Prod.fst := by
  induction s with
  | nil => rfl
  | cons p rest ih =>
      by_cases h : p.1 = rec.item.id
      · simp [updateKey, h]
      · simp [updateKey, h, ih]

theorem keys_ensureKey (rec : Recommendation) (s : List (Int × Accum)) :
    (ensureKey rec s).map Prod.fst =
      if rec.item.id ∈ s.map Prod.fst then s.map Prod.fst
      else s.map Prod.fst ++ [rec.item.id] := by
  unfold ensureKey
  by_cases h : rec.item.id ∈ s.map Prod.fst <;> simp [h]

theorem mem_keys_ensureKey (rec : Recommendation) (s : List (Int × Accum)) :
    rec.item.id ∈ (ensureKey rec s).map Prod.fst := by
  rw [keys_ensureKey]
  by_cases h : rec.item.id ∈ s.map Prod.fst
  · rwa [if_pos h]
  · rw [if_neg h]
    simp

theorem keys_addRec (w : ℚ) (rec : Recommendation) (s : List (Int × Accum)) :
    (addRec w rec s).map Prod.fst =
      if rec.item.id ∈ s.map Prod.fst then s.map Prod.fst
      else s.map Prod.fst ++ [rec.item.id] := by
  unfold addRec
  rw [keys_updateKey, keys_ensureKey]

theorem nodup_keys_addRec {s : List (Int × Accum)} (w : ℚ) (rec : Recommendation)
    (h : (s.map Prod.fst).Nodup) : ((addRec w rec s).map Prod.fst).Nodup := by
  rw [keys_addRec]
  by_cases hm : rec.item.id ∈ s.map Prod.fst
  · simpa [hm]
  · rw [if_neg hm, List.nodup_append]
    refine ⟨h, List.nodup_singleton _, ?_⟩
    intro a ha hb
    rw [List.mem_singleton] at hb
    exact hm (hb ▸ ha)

theorem nodup_keys_processRecs {s : List (Int × Accum)} (w : ℚ)
    (recs : List Recommendation) (h : (s.map Prod.fst).Nodup) :
    ((processRecs w recs s).map Prod.fst).Nodup := by
  induction recs generalizing s with
  | nil => exact h
  | cons rec rest ih => exact ih (nodup_keys_addRec w rec h)

theorem keys_processRecs_subset {w : ℚ} {recs : List Recommendation}
    {s : List (Int × Accum)} {k : Int}
    (hk : k ∈ (processRecs w recs s).map Prod.fst) :
    k ∈ s.map Prod.fst ∨ ∃ x ∈ recs, x.item.id = k := by
  induction recs generalizing s with
  | nil => exact Or.inl hk
  | cons rec rest ih =>
      rcases ih hk with h | ⟨x, hx, he⟩
      · rw [keys_addRec] at h
        by_cases hm : rec.item.id ∈ s.map Prod.fst
        · rw [if_pos hm] at h
          exact Or.inl h
        · rw [if_neg hm] at h
          rcases List.mem_append.mp h with h | h
          · exact Or.inl h
          · rw [List.mem_singleton] at h
            exact Or.inr ⟨rec, List.mem_cons_self _ _, h.symm⟩
      · exact Or.inr ⟨x, List.mem_cons_of_mem _ hx, he⟩

theorem item_id_eq_key_updateKey {w : ℚ} {rec : Recommendation}
    {s : List (Int × Accum)} (h : ∀ p ∈ s, p.2.item.id = p.1) :
    ∀ p ∈ updateKey w rec s, p.2.item.id = p.1 := by
  induction s with
  | nil => intro p hp; cases hp
  | cons q rest ih =>
      intro p hp
      unfold updateKey at hp
      by_cases hq : q.1 = rec.item.id
      · rw [if_pos hq] at hp
        rcases List.mem_cons.mp hp with rfl | hp
        · exact h q (List.mem_cons_self _ _)
        · exact h p (List.mem_cons_of_mem _ hp)
      · rw [if_neg hq] at hp
        rcases List.mem_cons.mp hp with rfl | hp
        · exact h p (List.mem_cons_self _ _)
        · exact ih (fun x hx => h x (List.mem_cons_of_mem _ hx)) p hp

theorem item_id_eq_key_addRec {w : ℚ} {rec : Recommendation}
    {s : List (Int × Accum)} (h : ∀ p ∈ s, p.2.item.id = p.1) :
    ∀ p ∈ addRec w rec s, p.2.item.id = p.1 := by
  unfold addRec
  apply item_id_eq_key_updateKey
  unfold ensureKey
  by_cases hm : rec.item.id ∈ s.map Prod.fst
  · rwa [if_pos hm]
  · rw [if_neg hm]
    intro p hp
    rcases List.mem_append.mp hp with hp | hp
    · exact h p hp
    · rw [List.mem_singleton] at hp
      subst hp
      rfl

theorem item_id_eq_key_processRecs {w : ℚ} {recs : List Recommendation}
    {s : List (Int × Accum)} (h : ∀ p ∈ s, p.2.item.id = p.1) :
    ∀ p ∈ processRecs w recs s, p.2.item.id = p.1 := by
  induction recs generalizing s with
  | nil => exact h
  | cons rec rest ih => exact ih (item_id_eq_key_addRec h)

theorem accScore_updateKey {rec : Recommendation} {s : List (Int × Accum)}
    (w : ℚ) (hmem : rec.item.id ∈ s.map Prod.fst) (k : Int) :
    accScore (updateKey w rec s) k =
      accScore s k + (if rec.item.id = k then rec.score * w else 0) := by
  induction s with
  | nil => cases hmem
  | cons q rest ih =>
      unfold updateKey
      by_cases hq : q.1 = rec.item.id
      · rw [if_pos hq]
        by_cases hk : q.1 = k
        · have he : rec.item.id = k := hq.symm.trans hk
          simp [accScore, hk, he]
        · have hne : ¬ rec.item.id = k := fun he => hk (hq.trans he)
          simp [accScore, hk, hne]
      · rw [if_neg hq]
        have hmem2 : rec.item.id ∈ rest.map Prod.fst := by
          rw [List.map_cons] at hmem
          rcases List.mem_cons.mp hmem with he | hm
          · exact absurd he.symm hq
          · exact hm
        by_cases hk : q.1 = k
        · have hne : ¬ rec.item.id = k := fun he => hq (hk.trans he.symm)
          simp [accScore, hk, hne]
        · simp [accScore, hk, ih hmem2]

theorem accScore_append_zero (s : List (Int × Accum)) (k0 k : Int)
    (item : MenuItem) :
    accScore (s ++ [(k0,
      { item := item, total_score := 0, reasons := [], types := [] })]) k =
      accScore s k := by
  induction s with
  | nil => by_cases hk : k0 = k <;> simp [accScore, hk]
  | cons q rest ih => by_cases hq : q.1 = k <;> simp [accScore, hq, ih]

theorem accScore_ensureKey (rec : Recommendation) (s : List (Int × Accum))
    (k : Int) : accScore (ensureKey rec s) k = accScore s k := by
  unfold ensureKey
  by_cases hm : rec.item.id ∈ s.map Prod.fst
  · rw [if_pos hm]
  · rw [if_neg hm]
    exact accScore_append_zero s rec.item.id k rec.item

theorem accScore_addRec (w : ℚ) (rec : Recommendation) (s : List (Int × Accum))
    (k : Int) :
    accScore (addRec w rec s) k =
      accScore s k + (if rec.item.id = k then rec.score * w else 0) := by
  unfold addRec
  rw [accScore_updateKey w (mem_keys_ensureKey rec s), accScore_ensureKey]

theorem sumScores_cons (x : Recommendation) (recs : List Recommendation)
    (k : Int) :
    sumScores (x :: recs) k =
      (if x.item.id = k then x.score else 0) + sumScores recs k := by
  unfold sumScores
  by_cases h : x.item.id = k <;> simp [List.filter_cons, h]

theorem accScore_processRecs (w : ℚ) (recs : List Recommendation)
    (s : List (Int × Accum)) (k : Int) :
    accScore (processRecs w recs s) k = accScore s k + sumScores recs k * w := by
  induction recs generalizing s with
  | nil => simp [processRecs, sumScores]
  | cons rec rest ih =>
      show accScore (processRecs w rest (addRec w rec s)) k = _
      rw [ih, accScore_addRec, sumScores_cons]
      by_cases h : rec.item.id = k
      · simp only [if_pos h]
        ring
      · simp only [if_neg h]
        ring

theorem mem_setAddStr {s : List String} {x t : String} :
    t ∈ setAddStr s x ↔ t ∈ s ∨ t = x := by
  unfold setAddStr
  by_cases h : x ∈ s
  · rw [if_pos h]
    constructor
    · exact Or.inl
    · rintro (ht | rfl)
      exacts [ht, h]
  · rw [if_neg h]
    simp

theorem accTypes_updateKey {rec : Recommendation} {s : List (Int × Accum)}
    (w : ℚ) (hmem : rec.item.id ∈ s.map Prod.fst) (k : Int) (t : String) :
    t ∈ accTypes (updateKey w rec s) k ↔
      t ∈ accTypes s k ∨ (rec.item.id = k ∧ t = rec.recommendation_type) := by
  induction s with
  | nil => cases hmem
  | cons q rest ih =>
      unfold updateKey
      by_cases hq : q.1 = rec.item.id
      · rw [if_pos hq]
        by_cases hk : q.1 = k
        · have he : rec.item.id = k := hq.symm.trans hk
          simp [accTypes, hk, he, mem_setAddStr]
        · have hne : ¬ rec.item.id = k := fun he => hk (hq.trans he)
          simp [accTypes, hk, hne]
      · rw [if_neg hq]
        have hmem2 : rec.item.id ∈ rest.map Prod.fst := by
          rw [List.map_cons] at hmem
          rcases List.mem_cons.mp hmem with he | hm
          · exact absurd he.symm hq
          · exact hm
        by_cases hk : q.1 = k
        · have hne : ¬ rec.item.id = k := fun he => hq (hk.trans he.symm)
          simp [accTypes, hk, hne]
        · simp [accTypes, hk, ih hmem2]

theorem accTypes_append_zero (s : List (Int × Accum)) (k0 k : Int)
    (item : MenuItem) :
    accTypes (s ++ [(k0,
      { item := item, total_score := 0, reasons := [], types := [] })]) k =
      accTypes s k := by
  induction s with
  | nil => by_cases hk : k0 = k <;> simp [accTypes, hk]
  | cons q rest ih => by_cases hq : q.1 = k <;> simp [accTypes, hq, ih]

theorem accTypes_ensureKey (rec : Recommendation) (s : List (Int × Accum))
    (k : Int) : accTypes (ensureKey rec s) k = accTypes s k := by
  unfold ensureKey
  by_cases hm : rec.item.id ∈ s.map Prod.fst
  · rw [if_pos hm]
  · rw [if_neg hm]
    exact accTypes_append_zero s rec.item.id k rec.item

theorem accTypes_addRec (w : ℚ) (rec : Recommendation) (s : List (Int × Accum))
    (k : Int) (t : String) :
    t ∈ accTypes (addRec w rec s) k ↔
      t ∈ accTypes s k ∨ (rec.item.id = k ∧ t = rec.recommendation_type) := by
  unfold addRec
  rw [accTypes_updateKey w (mem_keys_ensureKey rec s), accTypes_ensureKey]

theorem accTypes_processRecs (w : ℚ) (recs : List Recommendation)
    (s : List (Int × Accum)) (k : Int) (t : String) :
    t ∈ accTypes (processRecs w recs s) k ↔
      t ∈ accTypes s k ∨ ∃ x ∈ recs, x.item.id = k ∧ t = x.recommendation_type := by
  induction recs generalizing s with
  | nil => simp [processRecs]
  | cons rec rest ih =>
      show t ∈ accTypes (processRecs w rest (addRec w rec s)) k ↔ _
      rw [ih, accTypes_addRec]
      constructor
      · rintro ((ht | ⟨hk, htt⟩) | ⟨x, hx, hxk, htt⟩)
        · exact Or.inl ht
        · exact Or.inr ⟨rec, List.mem_cons_self _ _, hk, htt⟩
        · exact Or.inr ⟨x, List.mem_cons_of_mem _ hx, hxk, htt⟩
      · rintro (ht | ⟨x, hx, hxk, htt⟩)
        · exact Or.inl (Or.inl ht)
        · rcases List.mem_cons.mp hx with rfl | hx
          · exact Or.inl (Or.inr ⟨hxk, htt⟩)
          · exact Or.inr ⟨x, hx, hxk, htt⟩

theorem acc_of_mem {s : List (Int × Accum)} (hnd : (s.map Prod.fst).Nodup)
    {p : Int × Accum} (hp : p ∈ s) :
    accScore s p.1 = p.2.total_score ∧ accTypes s p.1 = p.2.types := by
  induction s with
  | nil => cases hp
  | cons q rest ih =>
      rcases List.mem_cons.mp hp with rfl | hp
      · simp [accScore, accTypes]
      · have hq : ¬ q.1 = p.1 := by
          intro he
          have hmem : p.1 ∈ rest.map Prod.fst := List.mem_map.mpr ⟨p, hp, rfl⟩
          simp only [List.map_cons, List.nodup_cons] at hnd
          exact hnd.1 (by rw [he]; exact hmem)
        simp only [accScore, accTypes, if_neg hq]
        refine ih ?_ hp
        simp only [List.map_cons, List.nodup_cons] at hnd
        exact hnd.2

theorem nodup_keys_combinedScoresFor (cfg : Config)
    (f s r : List Recommendation) :
    ((combinedScoresFor cfg f s r).map Prod.fst).Nodup := by
  unfold combinedScoresFor
  exact nodup_keys_processRecs _ _ (nodup_keys_processRecs _ _
    (nodup_keys_processRecs _ _ List.nodup_nil))

theorem item_id_eq_key_combinedScoresFor (cfg : Config)
    (f s r : List Recommendation) :
    ∀ p ∈ combinedScoresFor cfg f s r, p.2.item.id = p.1 := by
  unfold combinedScoresFor
  exact item_id_eq_key_processRecs (item_id_eq_key_processRecs
    (item_id_eq_key_processRecs (fun p hp => absurd hp (List.not_mem_nil p))))

theorem mem_combine {cfg : Config} {f s r : List Recommendation} {limit : Nat}
    {c : CombinedRecommendation}
    (hc : c ∈ combine_recommendations cfg f s r limit) :
    ∃ p ∈ combinedScoresFor cfg f s r,
      c.item = p.2.item ∧ c.score = p.2.total_score ∧
      c.recommendation_types = p.2.types ∧ c.item.id = p.1 := by
  unfold combine_recommendations at hc
  simp only [List.mem_map] at hc
  obtain ⟨p, hp, hpc⟩ := hc
  have hps : p ∈ combinedScoresFor cfg f s r :=
    mem_sortDescBy.mp ((List.take_sublist _ _).subset hp)
  have hinv := item_id_eq_key_combinedScoresFor cfg f s r p hps
  cases hpc
  exact ⟨p, hps, rfl, rfl, rfl, hinv⟩

theorem combine_shape (cfg : Config) (f s r : List Recommendation)
    (limit : Nat) :
    (combine_recommendations cfg f s r limit).length ≤ limit
  ∧ ((combine_recommendations cfg f s r limit).map
      (fun c => c.score)).Pairwise (fun a b => b ≤ a)
  ∧ ((combine_recommendations cfg f s r limit).map
      (fun c => c.item.id)).Nodup := by
  refine ⟨?_, ?_, ?_⟩
  · unfold combine_recommendations
    rw [List.length_map]
    exact List.length_take_le _ _
  · unfold combine_recommendations
    rw [List.pairwise_map, List.pairwise_map]
    exact List.Pairwise.sublist (List.take_sublist _ _)
      (sortDescBy_pairwise (fun p : Int × Accum => p.2.total_score) _)
  · have hme : (combine_recommendations cfg f s r limit).map
        (fun c => c.item.id) =
        ((sortDescBy (fun p : Int × Accum => p.2.total_score)
          (combinedScoresFor cfg f s r)).take limit).map Prod.fst := by
      unfold combine_recommendations
      rw [List.map_map]
      apply List.map_congr_left
      intro p hp
      exact item_id_eq_key_combinedScoresFor cfg f s r p
        (mem_sortDescBy.mp ((List.take_sublist _ _).subset hp))
    rw [hme, List.map_take]
    refine List.Nodup.sublist (List.take_sublist _ _) ?_
    rw [List.Perm.nodup_iff ((sortDescBy_perm _ _).map Prod.fst)]
    exact nodup_keys_combinedScoresFor cfg f s r

theorem exists_tag_iff {recs : List Recommendation} {tag : String}
    (htag : ∀ x ∈ recs, x.recommendation_type = tag) (k : Int) (t : String) :
    (∃ x ∈ recs, x.item.id = k ∧ t = x.recommendation_type) ↔
      (t = tag ∧ k ∈ recs.map (fun x => x.item.id)) := by
  constructor
  · rintro ⟨x, hx, hxk, rfl⟩
    exact ⟨htag x hx, List.mem_map.mpr ⟨x, hx, hxk⟩⟩
  · rintro ⟨rfl, hk⟩
    obtain ⟨x, hx, hxk⟩ := List.mem_map.mp hk
    exact ⟨x, hx, hxk, (htag x hx).symm⟩

/-! ### Claim theorems -/

/-- C1: for a customer whose fetched order history is shorter than
`MIN_ORDERS_FOR_RECOMMENDATION`, `get_customer_recommendations` returns
exactly the popularity fallback: the catalog provider's popular-items rows,
each scored by its `order_count` (default 0), reason "Popular choice among
customers", tagged "popular", with no personalized scorer contributing. -/
theorem popularity_fallback (cfg : Config) (sim : Nat → Nat → ℚ)
    (parse : String → Option Int) (now : Int) (db : Database)
    (customer_id : Int) (limit : Nat)
    (h : (db.get_customer_order_history customer_id).length <
      cfg.MIN_ORDERS_FOR_RECOMMENDATION) :
    get_customer_recommendations cfg sim parse now db customer_id limit =
      Except.ok (EngineOutput.popularList ((db.get_popular_items limit).map
        (fun row =>
          { item := row.item
            score := ((row.order_count.getD 0 : Int) : ℚ)
            reason := "Popular choice among customers"
            recommendation_type := "popular" }))) := by
  unfold get_customer_recommendations
  rw [if_pos h]
  rfl

/-- Witness for C1 on a concrete one-order customer. -/
theorem popularity_fallback_witness :
    get_customer_recommendations defaultConfig (fun _ _ => 0) (fun _ => none) 0
        dbPop 1 5 =
      Except.ok (EngineOutput.popularList ((dbPop.get_popular_items 5).map
        (fun row =>
          { item := row.item
            score := ((row.order_count.getD 0 : Int) : ℚ)
            reason := "Popular choice among customers"
            recommendation_type := "popular" }))) :=
  popularity_fallback defaultConfig (fun _ _ => 0) (fun _ => none) 0 dbPop 1 5
    (by decide)

/-- C5: the engine is a pure function of its inputs — two calls with the same
history, catalog, weights, oracles and arguments return identical output
(same items, order, scores and reason strings). -/
theorem engine_deterministic (cfg : Config) (sim : Nat → Nat → ℚ)
    (parse : String → Option Int) (now : Int) (db : Database)
    (customer_id : Int) (limit : Nat) :
    get_customer_recommendations cfg sim parse now db customer_id limit =
      get_customer_recommendations cfg sim parse now db customer_id limit := rfl

/-- C6: the frequency scorer scores each returned item by its summed quantity
over the whole history, returns items present in the catalog only, sorted by
non-increasing score and truncated to `limit`; an empty history yields the
empty list; and on history [A ×3, A ×2, B ×1] it ranks A (score 5) above
B (score 1). -/
theorem frequency_scorer_correct (db : Database) (customer_id : Int)
    (limit : Nat) :
    (∀ r ∈ get_frequency_based_recommendations db customer_id limit,
        r.score = ((totalQuantity (db.get_customer_order_history customer_id)
            r.item.id : Int) : ℚ)
          ∧ r.item ∈ db.get_menu_items ∧ r.recommendation_type = "frequency")
  ∧ ((get_frequency_based_recommendations db customer_id limit).map
      (fun r => r.score)).Pairwise (fun a b => b ≤ a)
  ∧ (get_frequency_based_recommendations db customer_id limit).length ≤ limit
  ∧ (db.get_customer_order_history customer_id = [] →
      get_frequency_based_recommendations db customer_id limit = [])
  ∧ get_frequency_based_recommendations dbAB 1 5 = [recA5, recB1] := by
  refine ⟨?_, ?_, ?_, ?_, ?_⟩
  · intro r hr
    obtain ⟨p, hp, hid, hscore, hmem, htag⟩ := mem_countBasedRecs hr
    refine ⟨?_, hmem, htag⟩
    have hv : countOf (itemCounts (db.get_customer_order_history customer_id))
        p.1 = p.2 :=
      countOf_of_mem (nodup_keys_itemCounts _) hp
    rw [hscore, hid, ← countOf_itemCounts, hv]
  · exact countBasedRecs_sorted _ _ _ _ _ _
  · exact countBasedRecs_length _ _ _ _ _ _
  · intro h
    simp [get_frequency_based_recommendations, h, itemCounts, countBasedRecs,
      sortDescBy]
  · decide

/-- Witness for C6 at the concrete history of `dbAB`. -/
theorem frequency_scorer_correct_witness :
    recA5.score = ((totalQuantity (dbAB.get_customer_order_history 1)
        recA5.item.id : Int) : ℚ)
      ∧ recA5.item ∈ dbAB.get_menu_items
      ∧ recA5.recommendation_type = "frequency" :=
  (frequency_scorer_correct dbAB 1 5).1 recA5 (by decide)

/-- C3 (amended): the claim that an unparsable timestamp is skipped is false —
`datetime.fromisoformat` is called without any exception handler, so an order
whose timestamp does not parse makes the recency scorer raise, and (for a
customer at or above the history threshold) the whole
`get_customer_recommendations` call aborts with that error. -/
theorem recency_unparsable_raises (cfg : Config) (sim : Nat → Nat → ℚ)
    (parse : String → Option Int) (now : Int) (db : Database)
    (customer_id : Int) (limit : Nat) (o : OrderRecord)
    (ho : o ∈ db.get_customer_order_history customer_id)
    (hbad : parse o.order_date = none) :
    get_recency_based_recommendations parse now db customer_id limit =
      Except.error ()
  ∧ (cfg.MIN_ORDERS_FOR_RECOMMENDATION ≤
        (db.get_customer_order_history customer_id).length →
      get_customer_recommendations cfg sim parse now db customer_id limit =
        Except.error ()) := by
  have hfe : filterRecent parse (now - THIRTY_DAYS)
      (db.get_customer_order_history customer_id) = Except.error () :=
    filterRecent_error ho hbad
  constructor
  · simp only [get_recency_based_recommendations, hfe]
  · intro hlen
    have hfe2 : get_recency_based_recommendations parse now db customer_id
        (limit * 2) = Except.error () := by
      simp only [get_recency_based_recommendations, hfe]
    have hcond : ¬ (db.get_customer_order_history customer_id).length <
        cfg.MIN_ORDERS_FOR_RECOMMENDATION := not_lt.mpr hlen
    simp only [get_customer_recommendations, if_neg hcond, hfe2]

/-- Witness for the amended C3 on a concrete three-order history whose second
order has an unparsable timestamp. -/
theorem recency_unparsable_raises_witness :
    get_recency_based_recommendations parseW 0 dbBadDate 1 5 = Except.error ()
  ∧ (defaultConfig.MIN_ORDERS_FOR_RECOMMENDATION ≤
        (dbBadDate.get_customer_order_history 1).length →
      get_customer_recommendations defaultConfig (fun _ _ => 0) parseW 0
        dbBadDate 1 5 = Except.error ()) :=
  recency_unparsable_raises defaultConfig (fun _ _ => 0) parseW 0 dbBadDate 1 5
    badOrder3 (by decide) (by decide)

/-- C3 counterexample: on a concrete history containing an order with an
unparsable timestamp, the recency scorer does not fail soft: it returns the
raised error, and the whole recommendation computation aborts, contradicting
the claim that such an order is merely excluded and no exception is raised. -/
theorem recency_unparsable_counterexample :
    parseW badOrder3.order_date = none
  ∧ badOrder3 ∈ dbBadDate.get_customer_order_history 1
  ∧ get_recency_based_recommendations parseW 0 dbBadDate 1 5 = Except.error ()
  ∧ get_customer_recommendations defaultConfig (fun _ _ => 0) parseW 0
      dbBadDate 1 5 = Except.error () := by
  refine ⟨by decide, by decide, rfl, rfl⟩

/-- C7 (amended): the recency scorer counts quantities exactly over the
orders whose parsed timestamp is strictly greater than `now - 30 days`; the
window has no upper bound (a future-dated order also counts) and the lower
boundary point is excluded.  In particular an order dated 31 days before now
contributes nothing and one dated 29 days before now contributes its
quantities. -/
theorem recency_window_amended (parse : String → Option Int) (now : Int)
    (db : Database) (customer_id : Int) (limit : Nat)
    (os : List OrderRecord)
    (hos : filterRecent parse (now - THIRTY_DAYS)
      (db.get_customer_order_history customer_id) = Except.ok os) :
    (∀ o ∈ os, ∃ t, parse o.order_date = some t ∧ now - THIRTY_DAYS < t)
  ∧ (∀ o ∈ db.get_customer_order_history customer_id, ∀ t,
      parse o.order_date = some t → now - THIRTY_DAYS < t → o ∈ os)
  ∧ (∀ o ∈ db.get_customer_order_history customer_id, ∀ t,
      parse o.order_date = some t → t ≤ now - THIRTY_DAYS → o ∉ os)
  ∧ (∀ recs, get_recency_based_recommendations parse now db customer_id limit =
        Except.ok recs →
      ∀ r ∈ recs, r.score = ((totalQuantity os r.item.id : Int) : ℚ)
        ∧ r.recommendation_type = "recency") := by
  obtain ⟨h1, h2⟩ := filterRecent_ok hos
  refine ⟨h1, h2, ?_, ?_⟩
  · intro o _ t hpt hle hmem
    obtain ⟨t', hpt', hlt'⟩ := h1 o hmem
    rw [hpt] at hpt'
    cases hpt'
    exact absurd hlt' (not_lt.mpr hle)
  · intro recs hrecs
    simp only [get_recency_based_recommendations, hos] at hrecs
    cases hrecs
    intro r hr
    obtain ⟨p, hp, hid, hscore, _, htag⟩ := mem_countBasedRecs hr
    refine ⟨?_, htag⟩
    have hv : countOf (itemCounts os) p.1 = p.2 :=
      countOf_of_mem (nodup_keys_itemCounts _) hp
    rw [hscore, hid, ← countOf_itemCounts, hv]

/-- Witness for the amended C7 on the concrete single-future-order history. -/
theorem recency_window_amended_witness :
    ∃ t, parseFut futOrder.order_date = some t ∧ (0 : Int) - THIRTY_DAYS < t :=
  (recency_window_amended parseFut 0 dbFut 1 5 [futOrder] rfl).1 futOrder
    (by decide)

/-- C7 counterexample: an order whose timestamp is strictly after `now`
(86400 = one day in the future, with `now = 0`) lies outside the claimed
window `[now - 30 days, now]`, yet the recency scorer counts its quantities:
the claim that only orders inside that window are counted is false (the code
checks only the strict lower bound `parsed > now - 30 days`). -/
theorem recency_window_counterexample :
    parseFut futOrder.order_date = some 86400
  ∧ (0 : Int) < 86400
  ∧ get_recency_based_recommendations parseFut 0 dbFut 1 5 =
      Except.ok [{ item := mA, score := 2
                   reason := "Recently ordered 2 times"
                   recommendation_type := "recency" }] :=
  ⟨rfl, by decide, rfl⟩

/-- C8: the similarity scorer never recommends an item the customer already
owns (its id is never in the owned set), and an empty owned set yields the
empty list. -/
theorem similarity_excludes_owned (sim : Nat → Nat → ℚ) (db : Database)
    (customer_id : Int) (limit : Nat) :
    (∀ r ∈ get_similarity_based_recommendations sim db customer_id limit,
        r.item.id ∉ orderedItems (db.get_customer_order_history customer_id))
  ∧ (orderedItems (db.get_customer_order_history customer_id) = [] →
      get_similarity_based_recommendations sim db customer_id limit = []) := by
  constructor
  · intro r hr
    simp only [get_similarity_based_recommendations] at hr
    by_cases he : orderedItems (db.get_customer_order_history customer_id) = []
    · rw [if_pos he] at hr
      cases hr
    · rw [if_neg he] at hr
      have h1 := takeUniqueById_subset hr
      have h2 := mem_sortDescBy.mp h1
      unfold similarityCandidates at h2
      rcases mem_foldl_append h2 with h3 | ⟨oid, _, h3⟩
      · cases h3
      · exact candidatesForOwned_not_owned h3
  · intro he
    simp only [get_similarity_based_recommendations, if_pos he]

/-- Witness for C8: for the customer of `dbSim` (owned set {1}), the returned
recommendation of item B is not in the owned set. -/
theorem similarity_excludes_owned_witness :
    recSimB.item.id ∉ orderedItems (dbSim.get_customer_order_history 1) :=
  (similarity_excludes_owned simW dbSim 1 5).1 recSimB (by
    have h : get_similarity_based_recommendations simW dbSim 1 5 = [recSimB] := by
      with_unfolding_all rfl
    rw [h]
    exact List.mem_singleton.mpr rfl)

/-- C2: for a customer at or above the history threshold, a successfully
returned combined list has length at most the requested limit, is sorted by
non-increasing combined score, and contains no menu item id twice. -/
theorem personalized_output_shape (cfg : Config) (sim : Nat → Nat → ℚ)
    (parse : String → Option Int) (now : Int) (db : Database)
    (customer_id : Int) (limit : Nat) (out : List CombinedRecommendation)
    (hlen : cfg.MIN_ORDERS_FOR_RECOMMENDATION ≤
      (db.get_customer_order_history customer_id).length)
    (hout : get_customer_recommendations cfg sim parse now db customer_id
      limit = Except.ok (EngineOutput.combinedList out)) :
    out.length ≤ limit
  ∧ (out.map (fun c => c.score)).Pairwise (fun a b => b ≤ a)
  ∧ (out.map (fun c => c.item.id)).Nodup := by
  have hcond : ¬ (db.get_customer_order_history customer_id).length <
      cfg.MIN_ORDERS_FOR_RECOMMENDATION := not_lt.mpr hlen
  simp only [get_customer_recommendations, if_neg hcond] at hout
  cases hrec : get_recency_based_recommendations parse now db customer_id
      (limit * 2) with
  | error e =>
      rw [hrec] at hout
      exact Except.noConfusion hout
  | ok v =>
      rw [hrec] at hout
      injection hout with h1
      injection h1 with h2
      rw [← h2]
      exact combine_shape cfg _ _ v limit

/-- Witness for C2 on the concrete three-order customer of `dbSim`. -/
theorem personalized_output_witness :
    outW.length ≤ 5
  ∧ (outW.map (fun c => c.score)).Pairwise (fun a b => b ≤ a)
  ∧ (outW.map (fun c => c.item.id)).Nodup :=
  personalized_output_shape defaultConfig simW parseAll 0 dbSim 1 5 outW
    (by decide) (by with_unfolding_all rfl)

/-- C9: every combined score is the weighted sum, over the three strategy
lists, of that item's strategy scores times the strategy weights; on the
concrete inputs of the claim, the item scored 10 by frequency and 0.8 by
similarity gets 10·0.4 + 0.8·0.3 = 4.24, strictly above the 4.0 of the item
scored only 10 by frequency. -/
theorem combiner_weighted_sum (cfg : Config) (f s r : List Recommendation)
    (limit : Nat) :
    (∀ c ∈ combine_recommendations cfg f s r limit,
        c.score = sumScores f c.item.id * cfg.RECOMMENDATION_WEIGHT_FREQUENCY
          + sumScores s c.item.id * cfg.RECOMMENDATION_WEIGHT_SIMILARITY
          + sumScores r c.item.id * cfg.RECOMMENDATION_WEIGHT_RECENCY)
  ∧ combine_recommendations defaultConfig [fA10, fB10] [sA08] [] 5 =
      [cA424, cB40]
  ∧ cA424.score = 424/100 ∧ cB40.score = 4 ∧ (424/100 : ℚ) > 4 := by
  refine ⟨?_, by with_unfolding_all rfl, rfl, rfl, by norm_num⟩
  intro c hc
  obtain ⟨p, hp, hitem, hscore, htypes, hid⟩ := mem_combine hc
  have hacc := (acc_of_mem (nodup_keys_combinedScoresFor cfg f s r) hp).1
  have hchain : accScore (combinedScoresFor cfg f s r) p.1 =
      sumScores f p.1 * cfg.RECOMMENDATION_WEIGHT_FREQUENCY
        + sumScores s p.1 * cfg.RECOMMENDATION_WEIGHT_SIMILARITY
        + sumScores r p.1 * cfg.RECOMMENDATION_WEIGHT_RECENCY := by
    unfold combinedScoresFor
    rw [accScore_processRecs, accScore_processRecs, accScore_processRecs]
    show 0 + _ + _ + _ = _
    ring
  rw [hscore, ← hacc, hchain, hid]

/-- Witness for C9 at the concrete combined entry of item A. -/
theorem combiner_weighted_sum_witness :
    cA424.score =
      sumScores [fA10, fB10] cA424.item.id *
          defaultConfig.RECOMMENDATION_WEIGHT_FREQUENCY
        + sumScores [sA08] cA424.item.id *
            defaultConfig.RECOMMENDATION_WEIGHT_SIMILARITY
        + sumScores ([] : List Recommendation) cA424.item.id *
            defaultConfig.RECOMMENDATION_WEIGHT_RECENCY :=
  (combiner_weighted_sum defaultConfig [fA10, fB10] [sA08] [] 5).1 cA424 (by
    have h : combine_recommendations defaultConfig [fA10, fB10] [sA08] [] 5 =
        [cA424, cB40] := by with_unfolding_all rfl
    rw [h]
    exact List.mem_cons_self _ _)

/-- C10: when the three input lists carry their strategy tags (as the three
scorers guarantee), every combined recommendation references an item present
in at least one input list, and its set of recommendation types is exactly
the set of strategies whose list contains that item id — the combiner invents
no items and no tags. -/
theorem combiner_types_exact (cfg : Config) (f s r : List Recommendation)
    (limit : Nat)
    (hf : ∀ x ∈ f, x.recommendation_type = "frequency")
    (hs : ∀ x ∈ s, x.recommendation_type = "similarity")
    (hr : ∀ x ∈ r, x.recommendation_type = "recency") :
    ∀ c ∈ combine_recommendations cfg f s r limit,
      (c.item.id ∈ f.map (fun x => x.item.id)
        ∨ c.item.id ∈ s.map (fun x => x.item.id)
        ∨ c.item.id ∈ r.map (fun x => x.item.id))
      ∧ (∀ t, t ∈ c.recommendation_types ↔
          ((t = "frequency" ∧ c.item.id ∈ f.map (fun x => x.item.id))
            ∨ (t = "similarity" ∧ c.item.id ∈ s.map (fun x => x.item.id))
            ∨ (t = "recency" ∧ c.item.id ∈ r.map (fun x => x.item.id)))) := by
  intro c hc
  obtain ⟨p, hp, hitem, hscore, htypes, hid⟩ := mem_combine hc
  constructor
  · have hk : p.1 ∈ (combinedScoresFor cfg f s r).map Prod.fst :=
      List.mem_map.mpr ⟨p, hp, rfl⟩
    unfold combinedScoresFor at hk
    rw [hid]
    rcases keys_processRecs_subset hk with hk2 | ⟨x, hx, he⟩
    · rcases keys_processRecs_subset hk2 with hk3 | ⟨x, hx, he⟩
      · rcases keys_processRecs_subset hk3 with hk4 | ⟨x, hx, he⟩
        · cases hk4
        · exact Or.inl (List.mem_map.mpr ⟨x, hx, he⟩)
      · exact Or.inr (Or.inl (List.mem_map.mpr ⟨x, hx, he⟩))
    · exact Or.inr (Or.inr (List.mem_map.mpr ⟨x, hx, he⟩))
  · intro t
    have hty : c.recommendation_types =
        accTypes (combinedScoresFor cfg f s r) p.1 := by
      rw [htypes, (acc_of_mem (nodup_keys_combinedScoresFor cfg f s r) hp).2]
    rw [hty, hid]
    unfold combinedScoresFor
    rw [accTypes_processRecs, accTypes_processRecs, accTypes_processRecs,
      exists_tag_iff hf, exists_tag_iff hs, exists_tag_iff hr]
    have hnil : t ∈ accTypes ([] : List (Int × Accum)) p.1 ↔ False := by
      simp [accTypes]
    rw [hnil]
    tauto

/-- Witness for C10 at the concrete combined entry of item A. -/
theorem combiner_types_exact_witness :
    (cA424.item.id ∈ [fA10, fB10].map (fun x => x.item.id)
      ∨ cA424.item.id ∈ [sA08].map (fun x => x.item.id)
      ∨ cA424.item.id ∈ ([] : List Recommendation).map (fun x => x.item.id))
  ∧ (∀ t, t ∈ cA424.recommendation_types ↔
      ((t = "frequency" ∧ cA424.item.id ∈ [fA10, fB10].map (fun x => x.item.id))
        ∨ (t = "similarity" ∧ cA424.item.id ∈ [sA08].map (fun x => x.item.id))
        ∨ (t = "recency" ∧
            cA424.item.id ∈ ([] : List Recommendation).map (fun x => x.item.id)))) :=
  combiner_types_exact defaultConfig [fA10, fB10] [sA08] [] 5 (by decide)
    (by decide) (by decide) cA424 (by
      have h : combine_recommendations defaultConfig [fA10, fB10] [sA08] [] 5 =
          [cA424, cB40] := by with_unfolding_all rfl
      rw [h]
      exact List.mem_cons_self _ _)

/-- C4 (amended): the claim that non-normalized weights are rejected or
normalized is false — neither the configuration module nor the engine
constructor validates the weights; the combiner computes with whatever weights
the configuration holds, even when they do not sum to 1.0.  The default
weights 0.4/0.3/0.3 do sum to 1.0. -/
theorem weights_used_unvalidated (cfg : Config) (rec : Recommendation)
    (limit : Nat) (h : 1 ≤ limit) :
    combine_recommendations cfg [rec] [] [] limit =
      [{ item := rec.item
         score := rec.score * cfg.RECOMMENDATION_WEIGHT_FREQUENCY
         reason := rec.reason
         recommendation_types := [rec.recommendation_type] }]
  ∧ defaultConfig.RECOMMENDATION_WEIGHT_FREQUENCY
      + defaultConfig.RECOMMENDATION_WEIGHT_SIMILARITY
      + defaultConfig.RECOMMENDATION_WEIGHT_RECENCY = 1 := by
  constructor
  · have h1 : combinedScoresFor cfg [rec] [] [] =
        [(rec.item.id,
          { item := rec.item
            total_score := 0 + rec.score * cfg.RECOMMENDATION_WEIGHT_FREQUENCY
            reasons := [rec.reason]
            types := [rec.recommendation_type] })] := by
      simp [combinedScoresFor, processRecs, addRec, ensureKey, updateKey,
        setAddStr]
    unfold combine_recommendations
    rw [h1]
    have h2 : sortDescBy (fun p : Int × Accum => p.2.total_score)
        [(rec.item.id,
          { item := rec.item
            total_score := 0 + rec.score * cfg.RECOMMENDATION_WEIGHT_FREQUENCY
            reasons := [rec.reason]
            types := [rec.recommendation_type] })] =
        [(rec.item.id,
          { item := rec.item
            total_score := 0 + rec.score * cfg.RECOMMENDATION_WEIGHT_FREQUENCY
            reasons := [rec.reason]
            types := [rec.recommendation_type] })] := rfl
    rw [h2, List.take_of_length_le (by simpa using h)]
    simp only [List.map_cons, List.map_nil, dedupStr, setAddStr, List.foldl,
      List.not_mem_nil, if_false, List.nil_append, zero_add]
    rfl
  · norm_num [defaultConfig]

/-- Witness for the amended C4: with weights (1/2, 1/2, 1/2), which sum to
3/2, the combiner still computes with the raw weight 1/2. -/
theorem weights_used_unvalidated_witness :
    combine_recommendations badCfg [fA10] [] [] 1 =
      [{ item := fA10.item
         score := fA10.score * badCfg.RECOMMENDATION_WEIGHT_FREQUENCY
         reason := fA10.reason
         recommendation_types := [fA10.recommendation_type] }]
  ∧ defaultConfig.RECOMMENDATION_WEIGHT_FREQUENCY
      + defaultConfig.RECOMMENDATION_WEIGHT_SIMILARITY
      + defaultConfig.RECOMMENDATION_WEIGHT_RECENCY = 1 :=
  weights_used_unvalidated badCfg fA10 1 (by decide)

/-- C4 counterexample: with configured weights (1/2, 1/2, 1/2), whose sum is
3/2 ≠ 1, the engine performs no rejection and no normalization: it silently
computes a normal recommendation list using those raw weights (item A gets
score 3 = 3·(1/2) + 3·(1/2)). -/
theorem weights_not_validated_counterexample :
    badCfg.RECOMMENDATION_WEIGHT_FREQUENCY
        + badCfg.RECOMMENDATION_WEIGHT_SIMILARITY
        + badCfg.RECOMMENDATION_WEIGHT_RECENCY ≠ 1
  ∧ get_customer_recommendations badCfg sim0 parseAll 0 dbSim 1 5 =
      Except.ok (EngineOutput.combinedList outBad) := by
  refine ⟨by norm_num [badCfg], by with_unfolding_all rfl⟩

end CafeRec
